import Mathlib

/-!
Verification of the asset-capture application core (src/app.py).

Strings are modelled as `List Char`.  Python functions from src/app.py are
translated one-to-one into executable Lean definitions; the file store and the
SQLite database are modelled as explicit state values, and the mutations a
request performs are additionally recorded as an event trace (in program
order) so that ordering claims can be stated.  ASCII is assumed for the
character classes used by the Python regexes (the source data — QR payloads,
building codes, type labels — is ASCII).
-/

namespace AssetCapture

/-- Whitespace characters recognised by Python str.strip and the regex
class used in sanitize_component (ASCII range). -/
def isPySpace (c : Char) : Bool :=
  c = ' ' || c = '\t' || c = '\n' || c = '\r' || c = '\x0b' || c = '\x0c'

/-- The Windows-illegal filename characters replaced by sanitize_component. -/
def isIllegalChar (c : Char) : Bool :=
  c = '<' || c = '>' || c = ':' || c = '\"' || c = '/' || c = '\\' ||
  c = '|' || c = '?' || c = '*'

/-- The character class kept by the final filter of sanitize_component. -/
def isAllowedChar (c : Char) : Bool :=
  c.isAlpha || c.isDigit || c = '.' || c = '_' || c = '-'

/-- Strip characters satisfying p from both ends (Python str.strip). -/
def stripChars (p : Char → Bool) (l : List Char) : List Char :=
  ((l.dropWhile p).reverse.dropWhile p).reverse

/-- Python str.strip with no argument. -/
def pyStrip (l : List Char) : List Char :=
  stripChars isPySpace l

/-- First maximal run of at least six consecutive ASCII digits
(the regex search for a six-plus digit run in sanitize_component);
cur accumulates the current run in reverse. -/
def firstDigitRunGo (cur : List Char) : List Char → Option (List Char)
  | [] => if 6 ≤ cur.length then some cur.reverse else none
  | c :: rest =>
    if c.isDigit then firstDigitRunGo (c :: cur) rest
    else if 6 ≤ cur.length then some cur.reverse
    else firstDigitRunGo [] rest

def firstDigitRun (l : List Char) : Option (List Char) :=
  firstDigitRunGo [] l

/-- Drop a leading URI scheme: letters followed by a colon
(the scheme-removal substitution in sanitize_component). -/
def stripScheme (l : List Char) : List Char :=
  match l.takeWhile Char.isAlpha, l.dropWhile Char.isAlpha with
  | [], _ => l
  | _ :: _, ':' :: rest => rest
  | _ :: _, _ => l

/-- Replace every maximal run of characters satisfying p by a single
underscore (the run-collapsing substitutions in sanitize_component).
inRun is true while inside a run already rewritten. -/
def collapseRuns (p : Char → Bool) (inRun : Bool) : List Char → List Char
  | [] => []
  | c :: rest =>
    if p c then
      if inRun then collapseRuns p true rest
      else '_' :: collapseRuns p true rest
    else c :: collapseRuns p false rest

/-- The fixed fallback token: first 8 hex digits of sha1 of the byte string
fallback, a constant independent of the input. -/
def fallbackToken : List Char := ['5', 'd', '2', '8', '8', 'a', 'd', '2']

/-- The pipeline of sanitize_component before the empty-fallback and the
truncation: strip, optional digit-run extraction, scheme and slash removal,
run collapsing, character filter, edge trim. -/
def sanitizeCore (s : List Char) (prefer_digits : Bool) : List Char :=
  let s1 := pyStrip s
  let s2 := if prefer_digits then (firstDigitRun s1).getD s1 else s1
  let s3 := stripChars (fun c => c = '/') (stripScheme s2)
  let s4 := collapseRuns isIllegalChar false s3
  let s5 := collapseRuns isPySpace false s4
  stripChars (fun c => c = '.' || c = '_' || c = '-') (s5.filter isAllowedChar)

/-- sanitize_component from src/app.py. -/
def sanitize_component (s : List Char) (prefer_digits : Bool) (maxlen : Nat) :
    List Char :=
  (if sanitizeCore s prefer_digits = [] then fallbackToken
   else sanitizeCore s prefer_digits).take maxlen

def lowerStr (s : List Char) : List Char := s.map Char.toLower

def upperStr (s : List Char) : List Char := s.map Char.toUpper

/-- map_asset_type_to_abbrev from src/app.py: strip and lowercase, test the
three known prefixes, otherwise uppercase the first two characters of the
lowered string, with AS substituted when that is empty. -/
def map_asset_type_to_abbrev (t : List Char) : List Char :=
  if ("mech".toList).isPrefixOf (lowerStr (pyStrip t)) then "ME".toList
  else if ("elec".toList).isPrefixOf (lowerStr (pyStrip t)) then "EL".toList
  else if ("back".toList).isPrefixOf (lowerStr (pyStrip t)) then "BF".toList
  else if ((lowerStr (pyStrip t)).take 2).map Char.toUpper = [] then
    "AS".toList
  else ((lowerStr (pyStrip t)).take 2).map Char.toUpper

/-- Python str.isdigit restricted to ASCII: nonempty and all decimal digits. -/
def pyIsDigit (s : List Char) : Bool :=
  !s.isEmpty && s.all Char.isDigit

/-- Decimal value of a digit string (Python int on a digit string). -/
def digitsToNat (s : List Char) : Nat :=
  s.foldl (fun n c => n * 10 + (c.toNat - 48)) 0

/-- The base part of os.path.splitext: everything before the final dot,
except that a dot with only dots before it starts no extension. -/
def splitextBase (name : List Char) : List Char :=
  let revName := name.reverse
  let ext := revName.takeWhile (fun c => !(c = '.'))
  match revName.drop ext.length with
  | [] => name
  | _ :: before =>
    if before.isEmpty || before.all (fun c => c = '.') then name
    else before.reverse

/-- The extension part of os.path.splitext (with the dot). -/
def splitextExt (name : List Char) : List Char :=
  name.drop (splitextBase name).length

/-- os.path.basename for POSIX paths: the part after the last slash. -/
def posixBasename (l : List Char) : List Char :=
  (l.reverse.takeWhile (fun c => !(c = '/'))).reverse

/-- SQLite LIKE character comparison: case-insensitive on ASCII letters,
exact elsewhere. -/
def charEqCI (a b : Char) : Bool :=
  a.toLower == b.toLower

/-- SQLite LIKE matching with explicit fuel; the percent wildcard matches any
run, the underscore wildcard any single character, other characters compare
case-insensitively on ASCII. -/
def likeMatchF : Nat → List Char → List Char → Bool
  | 0, _, _ => false
  | _ + 1, [], s => s.isEmpty
  | f + 1, pc :: ps, s =>
    if pc = '%' then
      likeMatchF f ps s ||
        (match s with
         | [] => false
         | _ :: ss => likeMatchF f ('%' :: ps) ss)
    else if pc = '_' then
      match s with
      | [] => false
      | _ :: ss => likeMatchF f ps ss
    else
      match s with
      | [] => false
      | c :: ss => charEqCI pc c && likeMatchF f ps ss

/-- SQLite LIKE matching of a string against a pattern. -/
def likeMatch (p s : List Char) : Bool :=
  likeMatchF (p.length + s.length + 1) p s

/-- The LIKE pattern used by delete_from_assets_by_qr: the QR followed by a
space and a percent wildcard. -/
def likePat (qr : List Char) : List Char :=
  qr ++ (' ' :: ['%'])

/-- The allowed image extensions (ALLOWED_EXTS in src/app.py). -/
def allowedExts : List (List Char) :=
  [".jpg", ".jpeg", ".png", ".webp", ".bmp", ".gif", ".tif", ".tiff"].map
    String.toList

/-- seq_to_label from src/app.py: map a photo sequence to a friendly label. -/
def seq_to_label (asset_type seq : List Char) : List Char :=
  if pyIsDigit seq then
    let i := digitsToNat seq
    let t := (pyStrip asset_type).map Char.toLower
    if t = "mechanical".toList then
      if i = 0 then "Asset Plate".toList
      else if i = 1 then "UBC Tag".toList
      else if i = 2 then "Main Asset Photo".toList
      else if i = 3 then "Technical Safety BC".toList
      else "Photo ".toList ++ Nat.toDigits 10 i
    else
      if i = 0 then "Asset Plate".toList
      else if i = 1 then "UBC Tag".toList
      else if i = 2 then "Main Asset Photo".toList
      else "Photo ".toList ++ Nat.toDigits 10 i
  else "Photo".toList

/-- The QR_codes table: whether a building-code column was resolved from the
candidate list, and one row per QR (the building component is meaningful only
when hasBuildingCol is true; an insert without that column stores an empty
building). -/
structure QRcodesTable where
  hasBuildingCol : Bool
  rows : List (List Char × List Char)
deriving DecidableEq

/-- The mutable state a request touches: the names of files in the upload
directory, the assets table (none when the table or its code_assets column is
missing) and the QR_codes table (none when the table or its QR_code_ID column
is missing). -/
structure AppState where
  uploads : List (List Char)
  assets : Option (List (List Char))
  qrcodes : Option QRcodesTable
deriving DecidableEq

/-- One observable mutation performed by a request, in program order. -/
inductive Event where
  | delRecord : List Char → Event
  | delFile : List Char → Event
  | writeFile : List Char → Event
  | upsertQR : List Char → List Char → Event
  | insRecord : List Char → Event
deriving DecidableEq

/-- Is the event a deletion (of an asset record or of a stored file)? -/
def isDeleteEvent : Event → Bool
  | Event.delRecord _ => true
  | Event.delFile _ => true
  | _ => false

/-- delete_from_assets_by_qr from src/app.py: the SQL delete of all rows whose
code_assets is LIKE the QR followed by a space and a percent wildcard.
Returns the new table and the deleted rows as events. -/
def delete_from_assets_by_qr (assets : Option (List (List Char)))
    (qr : List Char) : Option (List (List Char)) × List Event :=
  match assets with
  | none => (none, [])
  | some rows =>
    (some (rows.filter (fun r => !likeMatch (likePat qr) r)),
     (rows.filter (fun r => likeMatch (likePat qr) r)).map Event.delRecord)

/-- delete_files_by_qr from src/app.py: remove every file whose name starts
with the QR followed by a space (Python startswith, an exact comparison). -/
def delete_files_by_qr (uploads : List (List Char)) (qr : List Char) :
    List (List Char) × List Event :=
  (uploads.filter (fun f => !(qr ++ [' ']).isPrefixOf f),
   (uploads.filter (fun f => (qr ++ [' ']).isPrefixOf f)).map Event.delFile)

/-- upsert_qr_codes from src/app.py: keep or update the building code for a QR.
An event is emitted exactly when a row is inserted or updated. -/
def upsert_qr_codes (tbl : Option QRcodesTable) (qr bldg : List Char) :
    Option QRcodesTable × List Event :=
  match tbl with
  | none => (none, [])
  | some t =>
    if t.rows.any (fun r => r.1 == qr) then
      if t.hasBuildingCol then
        (some ⟨true, t.rows.map (fun r => if r.1 == qr then (r.1, bldg) else r)⟩,
         [Event.upsertQR qr bldg])
      else (some t, [])
    else
      if t.hasBuildingCol then
        (some ⟨true, t.rows ++ [(qr, bldg)]⟩, [Event.upsertQR qr bldg])
      else (some ⟨false, t.rows ++ [(qr, [])]⟩, [Event.upsertQR qr []])

/-- insert_into_assets from src/app.py: INSERT OR IGNORE one row per base
under the unique index on code_assets. -/
def insert_into_assets (assets : Option (List (List Char)))
    (bases : List (List Char)) : Option (List (List Char)) × List Event :=
  match assets with
  | none => (none, [])
  | some rows =>
    let r := bases.foldl
      (fun (acc : List (List Char) × List Event) b =>
        if acc.1.contains b then acc
        else (acc.1 ++ [b], acc.2 ++ [Event.insRecord b]))
      (rows, [])
    (some r.1, r.2)

/-- The canonical context string: the three sanitized components joined by
spaces and followed by a space, dash, space. -/
def contextPfx (qr bldg atype : List Char) : List Char :=
  sanitize_component qr true 80 ++
    ' ' :: (sanitize_component bldg false 80 ++
      ' ' :: (sanitize_component (map_asset_type_to_abbrev atype) false 80 ++
        (' ' :: '-' :: [' '])))

/-- The extension chosen for an uploaded file: the lowercased splitext
extension of the submitted filename, with .jpg substituted when it is empty
or not in the allowed set.  The werkzeug secure_filename pass (an external
collaborator not under src) is modelled as preserving the extension, as the
spec describes the extension as determined from the original filename. -/
def extOf (orig : List Char) : List Char :=
  let e := (splitextExt orig).map Char.toLower
  let e := if e = [] then ".jpg".toList else e
  if allowedExts.contains e then e else ".jpg".toList

/-- The form data of a submit request: the raw field values, and for each
image slot the submitted filename (none when the slot is absent; an empty
name is skipped like an absent slot). -/
structure SubmitForm where
  qr_code : List Char
  building_code : List Char
  asset_type : List Char
  overwrite : List Char
  images : Nat → Option (List Char)

/-- The asset_type field after the Python or-default and strip. -/
def effectiveAssetType (form : SubmitForm) : List Char :=
  pyStrip (if form.asset_type = [] then "Mechanical".toList else form.asset_type)

/-- The overwrite field after the Python or-default and strip. -/
def effectiveOverwrite (form : SubmitForm) : List Char :=
  pyStrip (if form.overwrite = [] then ['0'] else form.overwrite)

/-- The outcome reported by submit. -/
inductive SubmitResult where
  | validationError
  | success : List (List Char) → SubmitResult
deriving DecidableEq

/-- The overwrite-clear step of submit: when overwrite is the string 1,
delete the asset rows and then the files for the sanitized QR. -/
def overwriteClear (ow safe_qr : List Char) (st : AppState) :
    AppState × List Event :=
  if ow = ['1'] then
    (⟨(delete_files_by_qr st.uploads safe_qr).1,
      (delete_from_assets_by_qr st.assets safe_qr).1, st.qrcodes⟩,
     (delete_from_assets_by_qr st.assets safe_qr).2 ++
       (delete_files_by_qr st.uploads safe_qr).2)
  else (st, [])

/-- Accumulator of the image-saving loop of submit. -/
structure SaveAcc where
  uploads : List (List Char)
  files_saved : List (List Char)
  bases : List (List Char)
  events : List Event
deriving DecidableEq

/-- Write a file into the upload directory (an existing file of the same name
is overwritten in place, so the name set gains at most one entry). -/
def saveOne (uploads : List (List Char)) (fname : List Char) :
    List (List Char) :=
  if uploads.contains fname then uploads else uploads ++ [fname]

/-- The canonical base name of the image in slot i (no extension). -/
def saveBaseName (safe_qr safe_bldg safe_type : List Char) (i : Nat) :
    List Char :=
  safe_qr ++ ' ' :: (safe_bldg ++ ' ' ::
    (safe_type ++ (' ' :: '-' :: ' ' :: Nat.toDigits 10 i)))

/-- One iteration of the image-saving loop of submit for slot i. -/
def saveStep (images : Nat → Option (List Char))
    (safe_qr safe_bldg safe_type : List Char) (acc : SaveAcc) (i : Nat) :
    SaveAcc :=
  match images i with
  | none => acc
  | some orig =>
    if orig = [] then acc
    else
      ⟨saveOne acc.uploads (saveBaseName safe_qr safe_bldg safe_type i ++ extOf orig),
       acc.files_saved ++ [saveBaseName safe_qr safe_bldg safe_type i ++ extOf orig],
       acc.bases ++ [saveBaseName safe_qr safe_bldg safe_type i],
       acc.events ++ [Event.writeFile
         (saveBaseName safe_qr safe_bldg safe_type i ++ extOf orig)]⟩

/-- The image-saving loop of submit over the four slots. -/
def saveLoop (images : Nat → Option (List Char))
    (safe_qr safe_bldg safe_type : List Char)
    (uploads0 : List (List Char)) : SaveAcc :=
  [0, 1, 2, 3].foldl (saveStep images safe_qr safe_bldg safe_type)
    ⟨uploads0, [], [], []⟩

/-- The sanitized QR component a submit works with. -/
def submitSafeQr (form : SubmitForm) : List Char :=
  sanitize_component (pyStrip form.qr_code) true 80

/-- The overwrite-clear step of a submit, with its state and events. -/
def submitOC (form : SubmitForm) (st : AppState) : AppState × List Event :=
  overwriteClear (effectiveOverwrite form) (submitSafeQr form) st

/-- The image-saving loop of a submit, run on the post-clear upload
directory. -/
def submitAcc (form : SubmitForm) (st : AppState) : SaveAcc :=
  saveLoop form.images (submitSafeQr form)
    (sanitize_component (pyStrip form.building_code) false 80)
    (sanitize_component (map_asset_type_to_abbrev (effectiveAssetType form))
      false 80)
    (submitOC form st).1.uploads

/-- The QR-mapping upsert of a submit (the raw stripped building code is
stored, not the sanitized one). -/
def submitUp (form : SubmitForm) (st : AppState) :
    Option QRcodesTable × List Event :=
  upsert_qr_codes (submitOC form st).1.qrcodes (submitSafeQr form)
    (pyStrip form.building_code)

/-- The asset-record inserts of a submit (skipped when no image was saved). -/
def submitIns (form : SubmitForm) (st : AppState) :
    Option (List (List Char)) × List Event :=
  if (submitAcc form st).bases = [] then
    ((submitOC form st).1.assets, ([] : List Event))
  else insert_into_assets (submitOC form st).1.assets
    (submitAcc form st).bases

/-- The body of submit after validation has passed: overwrite-clear, then
the saving loop, then the upsert and the inserts, with the events of each
step in program order. -/
def submitCore (form : SubmitForm) (st : AppState) :
    SubmitResult × AppState × List Event :=
  (SubmitResult.success (submitAcc form st).files_saved,
   ⟨(submitAcc form st).uploads, (submitIns form st).1, (submitUp form st).1⟩,
   (submitOC form st).2 ++
     ((submitAcc form st).events ++ (submitUp form st).2 ++
       (submitIns form st).2))

/-- The submit route of src/app.py: validate the QR and building fields, then
run the overwrite-clear, the saving loop and the database writes in order. -/
def submit (form : SubmitForm) (st : AppState) :
    SubmitResult × AppState × List Event :=
  if pyStrip form.qr_code = [] ∨ pyStrip form.building_code = [] then
    (SubmitResult.validationError, st, [])
  else submitCore form st

/-- The body of a delete-upload request. -/
structure DeleteReq where
  qr_code : List Char
  building_code : List Char
  asset_type : List Char
  filename : List Char

/-- The outcome of delete_upload. -/
inductive DeleteResult where
  | missingParams
  | notInContext
  | ok
deriving DecidableEq

/-- delete_upload from src/app.py: basename the supplied filename, check all
four fields are present, check the filename carries the canonical context
string, then remove the file and the asset row of the extension-free base. -/
def delete_upload (req : DeleteReq) (st : AppState) : DeleteResult × AppState :=
  if pyStrip req.qr_code = [] ∨ pyStrip req.building_code = [] ∨
      pyStrip req.asset_type = [] ∨
      posixBasename (pyStrip req.filename) = [] then
    (DeleteResult.missingParams, st)
  else if !(contextPfx (pyStrip req.qr_code) (pyStrip req.building_code)
      (pyStrip req.asset_type)).isPrefixOf
      (posixBasename (pyStrip req.filename)) then
    (DeleteResult.notInContext, st)
  else
    (DeleteResult.ok,
     ⟨st.uploads.filter
        (fun f => !(f = posixBasename (pyStrip req.filename))),
      match st.assets with
      | none => none
      | some rows => some (rows.filter
          (fun r => !(r = splitextBase (posixBasename (pyStrip req.filename))))),
      st.qrcodes⟩)

/-- One entry of the existing-uploads listing (the url field, produced by the
framework url helper, is omitted). -/
structure UploadEntry where
  filename : List Char
  base : List Char
  seq : List Char
  label : List Char
deriving DecidableEq

/-- The trailing sequence of a base name: the maximal trailing digit run when
it is nonempty and preceded by whitespace, dash, whitespace (the regex in
list_existing_uploads); empty otherwise. -/
def parseSeq (base : List Char) : List Char :=
  let rev := base.reverse
  let digits := rev.takeWhile Char.isDigit
  if digits.isEmpty then []
  else
    match rev.drop digits.length with
    | a :: b :: c :: _ =>
      if isPySpace a && b = '-' && isPySpace c then digits.reverse else []
    | _ => []

/-- The sort key of list_existing_uploads: the parsed sequence number when the
seq string is all digits, 9999 otherwise. -/
def seqKey (e : UploadEntry) : Nat :=
  if pyIsDigit e.seq then digitsToNat e.seq else 9999

/-- Stable insertion into a list sorted ascending by seqKey (inserts after
existing entries of equal key, as the stable Python sort keeps them). -/
def insertByKey (x : UploadEntry) : List UploadEntry → List UploadEntry
  | [] => [x]
  | y :: ys => if seqKey y ≤ seqKey x then y :: insertByKey x ys
               else x :: y :: ys

/-- A stable ascending sort by seqKey (the Python list sort with the seq key,
which is stable and ascending). -/
def sortEntries (l : List UploadEntry) : List UploadEntry :=
  l.foldl (fun acc x => insertByKey x acc) []

/-- Does the lowercased name end with one of the allowed extensions? -/
def hasAllowedExt (fname : List Char) : Bool :=
  allowedExts.any (fun e => e.isSuffixOf (fname.map Char.toLower))

/-- list_existing_uploads from src/app.py: filter the directory listing by
extension and canonical context, parse the sequence, label it, sort by
sequence key. -/
def list_existing_uploads (qr_code building_code asset_type : List Char)
    (uploads : List (List Char)) : List UploadEntry :=
  let pfx := contextPfx qr_code building_code asset_type
  let entries := (uploads.filter
      (fun f => hasAllowedExt f && pfx.isPrefixOf f)).map
    (fun f =>
      let base := splitextBase f
      let seq := parseSeq base
      (⟨f, base, seq, seq_to_label asset_type seq⟩ : UploadEntry))
  sortEntries entries

/-- One table of the SQLite database, as the buildings loader sees it:
its name, its column names and its rows (cell values as strings; the
stringification of arbitrary cell values is absorbed into the model). -/
structure SqTable where
  name : List Char
  cols : List (List Char)
  rows : List (List (List Char))

/-- A building option (code, name). -/
structure BOption where
  code : List Char
  name : List Char
deriving DecidableEq

/-- The fixed fallback options of get_building_options. -/
def fallback_buildings : List BOption :=
  [⟨"314-1".toList, "Building 314-1".toList⟩,
   ⟨"482".toList, "Abdul Ladha Science Student Centre 482".toList⟩,
   ⟨"775".toList, "Recreation Centre North".toList⟩]

/-- Column-name normalization used by the loader: lowercase, then
underscores as spaces. -/
def normKey (s : List Char) : List Char :=
  (lowerStr s).map (fun c => if c = '_' then ' ' else c)

def code_keys : List (List Char) :=
  ["Code", "Building Code", "Bldg Code", "Bldg_Num", "Bldg Number",
   "Property", "Bldg"].map String.toList

def name_keys : List (List Char) :=
  ["Name", "Building Name", "Building_Name", "Description",
   "Building"].map String.toList

/-- Substring test (Python in on strings). -/
def containsSub (needle : List Char) : List Char → Bool
  | [] => needle.isEmpty
  | c :: rest => needle.isPrefixOf (c :: rest) || containsSub needle rest

/-- The candidate buildings tables: exact (case-insensitive) name matches
first, otherwise any table whose lowercased name contains building. -/
def buildingCandidates (tables : List SqTable) : List SqTable :=
  let exact := tables.filter (fun t => lowerStr t.name == "buildings".toList)
  if exact.isEmpty then
    tables.filter (fun t => containsSub "building".toList (lowerStr t.name))
  else exact

/-- First column whose normalized name equals a normalized key. -/
def findCol (cols : List (List Char)) (keys : List (List Char)) :
    Option (List Char) :=
  cols.find? (fun c => keys.any (fun k => normKey c == normKey k))

/-- The value of a row under a named column (empty when absent). -/
def rowVal (cols : List (List Char)) (row : List (List Char))
    (col : List Char) : List Char :=
  match cols.findIdx? (fun c => c == col) with
  | none => []
  | some i => (row.get? i).getD []

/-- The (code, name) items projected from the chosen table: by the resolved
column pair when a code column is recognised, otherwise by the per-row
guess (first all-digit value as code, first non-digit nonempty value as
name). -/
def projectItems (t : SqTable) : List BOption :=
  match findCol t.cols code_keys with
  | some code_col =>
    let name_col := (findCol t.cols name_keys).getD code_col
    t.rows.filterMap (fun row =>
      let c := pyStrip (rowVal t.cols row code_col)
      let n := pyStrip (rowVal t.cols row name_col)
      if c = [] then none
      else some ⟨c, if n = [] then c else n⟩)
  | none =>
    t.rows.filterMap (fun row =>
      let vals := row.map pyStrip
      let code_guess := ((vals.find? (fun v => pyIsDigit v)).getD [])
      let name_guess :=
        ((vals.find? (fun v => !v.isEmpty && !pyIsDigit v)).getD [])
      if code_guess = [] then none
      else some ⟨code_guess, if name_guess = [] then code_guess
                             else name_guess⟩)

/-- Lexicographic string comparison by code point (Python string le). -/
def strLe : List Char → List Char → Bool
  | [], _ => true
  | _ :: _, [] => false
  | a :: as, b :: bs =>
    if a < b then true else if b < a then false else strLe as bs

/-- Stable insertion into a list sorted ascending by uppercased name. -/
def insertByName (x : BOption) : List BOption → List BOption
  | [] => [x]
  | y :: ys =>
    if strLe (upperStr y.name) (upperStr x.name) then y :: insertByName x ys
    else x :: y :: ys

/-- Stable ascending sort by uppercased name (the Python sorted call). -/
def sortByName (l : List BOption) : List BOption :=
  l.foldl (fun acc x => insertByName x acc) []

/-- Deduplication by code, first occurrence winning. -/
def dedupeByCode (seen : List (List Char)) : List BOption → List BOption
  | [] => []
  | it :: rest =>
    if seen.contains it.code then dedupeByCode seen rest
    else it :: dedupeByCode (it.code :: seen) rest

/-- The buildings loader of src/app.py.  Its argument is none when the
database file is missing or unreadable (every exception path of the Python
function returns the empty list, which the totality of this definition makes
explicit). -/
def load_buildings_from_sqlite (db : Option (List SqTable)) : List BOption :=
  match db with
  | none => []
  | some tables =>
    match buildingCandidates tables with
    | [] => []
    | t :: _ => dedupeByCode [] (sortByName (projectItems t))

/-- get_building_options from src/app.py: the loaded options, or the fixed
fallback when they are empty. -/
def get_building_options (db : Option (List SqTable)) : List BOption :=
  if (load_buildings_from_sqlite db).isEmpty then fallback_buildings
  else load_buildings_from_sqlite db

/-! ### Lemmas about the sanitizer -/

theorem mem_stripChars {c : Char} {p : Char → Bool} {l : List Char}
    (h : c ∈ stripChars p l) : c ∈ l := by
  unfold stripChars at h
  rw [List.mem_reverse] at h
  have h2 := List.dropWhile_subset p h
  rw [List.mem_reverse] at h2
  exact List.dropWhile_subset p h2

theorem sanitizeCore_allowed {c : Char} {s : List Char} {pd : Bool}
    (h : c ∈ sanitizeCore s pd) : isAllowedChar c = true := by
  unfold sanitizeCore at h
  have h2 := mem_stripChars h
  exact (List.mem_filter.1 h2).2

theorem fallback_allowed : ∀ c ∈ fallbackToken, isAllowedChar c = true := by
  decide

theorem sanitize_mem_allowed {c : Char} {s : List Char} {pd : Bool}
    {n : Nat} (h : c ∈ sanitize_component s pd n) : isAllowedChar c = true := by
  unfold sanitize_component at h
  have h2 := (List.take_sublist _ _).subset h
  split at h2
  · exact fallback_allowed c h2
  · exact sanitizeCore_allowed h2

theorem allowed_not_illegal {c : Char} (h : isAllowedChar c = true) :
    isIllegalChar c = false := by
  cases hx : isIllegalChar c
  · rfl
  · exfalso
    simp only [isIllegalChar, Bool.or_eq_true, decide_eq_true_eq] at hx
    rcases hx with ((((((((h1 | h1) | h1) | h1) | h1) | h1) | h1) | h1) | h1) <;>
      subst h1 <;> simp [isAllowedChar] at h

theorem allowed_not_space {c : Char} (h : isAllowedChar c = true) :
    isPySpace c = false := by
  cases hx : isPySpace c
  · rfl
  · exfalso
    simp only [isPySpace, Bool.or_eq_true, decide_eq_true_eq] at hx
    rcases hx with (((((h1 | h1) | h1) | h1) | h1) | h1) <;>
      subst h1 <;> simp [isAllowedChar] at h

theorem sanitize_component_ne_nil (s : List Char) (pd : Bool) :
    sanitize_component s pd 80 ≠ [] := by
  unfold sanitize_component
  split
  · decide
  · rename_i h
    rw [Ne, List.take_eq_nil_iff]
    intro h2
    rcases h2 with h2 | h2
    · exact absurd h2 (by decide)
    · exact h h2

/-- C1: for every input string and every prefer-digits flag,
sanitize_component with the default maximum length 80 returns a nonempty
string containing none of the Windows-illegal filename characters and no
whitespace character. -/
theorem C1_sanitize_safe (raw : List Char) (pd : Bool) :
    sanitize_component raw pd 80 ≠ [] ∧
    (sanitize_component raw pd 80).all
      (fun c => !isIllegalChar c && !isPySpace c) = true := by
  refine ⟨sanitize_component_ne_nil raw pd, ?_⟩
  rw [List.all_eq_true]
  intro c hc
  have h := sanitize_mem_allowed hc
  rw [allowed_not_illegal h, allowed_not_space h]
  rfl

/-! ### Lemmas about the asset-type abbreviator -/

theorem charToUpper_toLower (c : Char) : c.toLower.toUpper = c.toUpper := by
  unfold Char.toLower Char.toUpper
  by_cases h : c.toNat ≥ 65 ∧ c.toNat ≤ 90
  · rw [if_pos h]
    have hv : (Char.ofNat (c.toNat + 32)).toNat = c.toNat + 32 := by
      rw [Char.ofNat, dif_pos]
      · rfl
      · left
        omega
    rw [hv, if_pos (by omega : c.toNat + 32 ≥ 97 ∧ c.toNat + 32 ≤ 122),
        if_neg (by omega : ¬(c.toNat ≥ 97 ∧ c.toNat ≤ 122))]
    have h32 : c.toNat + 32 - 32 = c.toNat := by omega
    rw [h32, Char.ofNat_toNat]
  · rw [if_neg h]

theorem isPrefixOf_head_eq {a b : Char} {as bs l : List Char}
    (ha : (a :: as).isPrefixOf l = true)
    (hb : (b :: bs).isPrefixOf l = true) : a = b := by
  cases l with
  | nil => simp [List.isPrefixOf] at ha
  | cons c cs =>
    simp [List.isPrefixOf] at ha hb
    exact ha.1.trans hb.1.symm

/-- C9 (amended): the abbreviator returns ME, EL, BF when the trimmed,
lowercased input starts with mech, elec, back; AS when the input trims to
empty; otherwise the uppercase of the first two characters of the trimmed
input.  The result has at most two characters (one-character inputs give a
one-character result, so it is not always a two-letter code, and the prefix
tests and the character selection apply to the whitespace-trimmed input). -/
theorem C9_abbrev_amended (t : List Char) :
    (("mech".toList).isPrefixOf (lowerStr (pyStrip t)) = true →
      map_asset_type_to_abbrev t = "ME".toList) ∧
    (("elec".toList).isPrefixOf (lowerStr (pyStrip t)) = true →
      map_asset_type_to_abbrev t = "EL".toList) ∧
    (("back".toList).isPrefixOf (lowerStr (pyStrip t)) = true →
      map_asset_type_to_abbrev t = "BF".toList) ∧
    (pyStrip t = [] → map_asset_type_to_abbrev t = "AS".toList) ∧
    (("mech".toList).isPrefixOf (lowerStr (pyStrip t)) = false →
      ("elec".toList).isPrefixOf (lowerStr (pyStrip t)) = false →
      ("back".toList).isPrefixOf (lowerStr (pyStrip t)) = false →
      pyStrip t ≠ [] →
      map_asset_type_to_abbrev t = ((pyStrip t).take 2).map Char.toUpper) ∧
    (map_asset_type_to_abbrev t).length ≤ 2 := by
  refine ⟨?_, ?_, ?_, ?_, ?_, ?_⟩
  · intro h
    unfold map_asset_type_to_abbrev
    rw [if_pos h]
  · intro h
    have hm : ¬ ("mech".toList).isPrefixOf (lowerStr (pyStrip t)) = true := by
      intro hm
      exact absurd (isPrefixOf_head_eq hm h) (by decide)
    unfold map_asset_type_to_abbrev
    rw [if_neg hm, if_pos h]
  · intro h
    have hm : ¬ ("mech".toList).isPrefixOf (lowerStr (pyStrip t)) = true := by
      intro hm
      exact absurd (isPrefixOf_head_eq hm h) (by decide)
    have he : ¬ ("elec".toList).isPrefixOf (lowerStr (pyStrip t)) = true := by
      intro he
      exact absurd (isPrefixOf_head_eq he h) (by decide)
    unfold map_asset_type_to_abbrev
    rw [if_neg hm, if_neg he, if_pos h]
  · intro h
    unfold map_asset_type_to_abbrev
    rw [h]
    decide
  · intro h1 h2 h3 h4
    have n1 : ¬ ("mech".toList).isPrefixOf (lowerStr (pyStrip t)) = true := by
      rw [h1]
      decide
    have n2 : ¬ ("elec".toList).isPrefixOf (lowerStr (pyStrip t)) = true := by
      rw [h2]
      decide
    have n3 : ¬ ("back".toList).isPrefixOf (lowerStr (pyStrip t)) = true := by
      rw [h3]
      decide
    have hne : ((lowerStr (pyStrip t)).take 2).map Char.toUpper ≠ [] := by
      intro hc
      rw [List.map_eq_nil_iff, List.take_eq_nil_iff] at hc
      rcases hc with hc | hc
      · exact absurd hc (by decide)
      · simp only [lowerStr, List.map_eq_nil_iff] at hc
        exact h4 hc
    unfold map_asset_type_to_abbrev
    rw [if_neg n1, if_neg n2, if_neg n3, if_neg hne]
    simp only [lowerStr]
    rw [← List.map_take, List.map_map]
    exact List.map_congr_left (fun c _ => charToUpper_toLower c)
  · unfold map_asset_type_to_abbrev
    split
    · decide
    · split
      · decide
      · split
        · decide
        · split
          · decide
          · rw [List.length_map, List.length_take]
            exact Nat.min_le_left 2 _

/-- Witness for C9: the mech branch at the concrete input Mechanical. -/
theorem C9_abbrev_amended_witness :
    map_asset_type_to_abbrev ("Mechanical".toList) = "ME".toList :=
  (C9_abbrev_amended ("Mechanical".toList)).1 (by decide)

/-- C9 counterexample: on the input of a space followed by the letter a, the
abbreviator returns the single character A, which is not a two-letter code
and is not the uppercase of the first two characters of the input (that
would keep the leading space). -/
theorem C9_counterexample :
    map_asset_type_to_abbrev (' ' :: ['a']) = ['A'] ∧
    (map_asset_type_to_abbrev (' ' :: ['a'])).length ≠ 2 ∧
    map_asset_type_to_abbrev (' ' :: ['a']) ≠
      ((' ' :: ['a']).take 2).map Char.toUpper := by
  decide

/-- Witness for C1 at a concrete input. -/
theorem C1_sanitize_safe_witness :
    sanitize_component ("a b".toList) true 80 ≠ [] ∧
    (sanitize_component ("a b".toList) true 80).all
      (fun c => !isIllegalChar c && !isPySpace c) = true :=
  C1_sanitize_safe ("a b".toList) true

/-! ### The building directory fallback -/

/-- C8: the building loader is a total function (every exception path of the
Python code is an explicit empty-result value in the model, so no database
state makes it raise), and an unreadable source, an absent candidate table or
an empty loaded result each yield the fixed 3-entry fallback list. -/
theorem C8_buildings_fallback (db : Option (List SqTable)) :
    (db = none → get_building_options db = fallback_buildings) ∧
    (∀ ts, db = some ts → buildingCandidates ts = [] →
      get_building_options db = fallback_buildings) ∧
    (load_buildings_from_sqlite db = [] →
      get_building_options db = fallback_buildings) := by
  have h3 : load_buildings_from_sqlite db = [] →
      get_building_options db = fallback_buildings := by
    intro h
    unfold get_building_options
    rw [h]
    rfl
  refine ⟨?_, ?_, h3⟩
  · intro h
    subst h
    exact h3 rfl
  · intro ts h hc
    subst h
    apply h3
    simp only [load_buildings_from_sqlite, hc]

/-- Witness for C8 at the unreadable-database state. -/
theorem C8_buildings_fallback_witness :
    get_building_options none = fallback_buildings :=
  (C8_buildings_fallback none).1 rfl

/-! ### Validation, single-file delete and path confinement -/

/-- C3: a submit whose QR or building field strips to empty reports a
validation error, leaves the state untouched and performs no mutation. -/
theorem C3_validation_no_side_effects (form : SubmitForm) (st : AppState)
    (h : pyStrip form.qr_code = [] ∨ pyStrip form.building_code = []) :
    submit form st = (SubmitResult.validationError, st, []) := by
  unfold submit
  rw [if_pos h]

def c3form : SubmitForm :=
  ⟨[], "482".toList, "Mechanical".toList, ['1'], fun _ => none⟩

def c3state : AppState :=
  ⟨["85011 482 ME - 0.jpg".toList], some ["85011 482 ME - 0".toList],
   some ⟨true, []⟩⟩

/-- Witness for C3 at an empty QR with overwrite requested. -/
theorem C3_validation_witness :
    submit c3form c3state = (SubmitResult.validationError, c3state, []) :=
  C3_validation_no_side_effects c3form c3state (Or.inl rfl)

theorem posixBasename_no_slash (l : List Char) : '/' ∉ posixBasename l := by
  intro h
  unfold posixBasename at h
  rw [List.mem_reverse] at h
  have h2 := List.mem_takeWhile_imp h
  simp at h2

/-- C10: the only entry delete_upload can remove from the upload directory is
the basename of the supplied filename, and a basename never contains a path
separator, so the removed path is always directly inside the upload
directory. -/
theorem C10_delete_confined (req : DeleteReq) (st : AppState) :
    (∀ f, f ∈ st.uploads → f ∉ (delete_upload req st).2.uploads →
      f = posixBasename (pyStrip req.filename)) ∧
    '/' ∉ posixBasename (pyStrip req.filename) := by
  constructor
  · intro f hf hnf
    unfold delete_upload at hnf
    split at hnf
    · exact absurd hf hnf
    · split at hnf
      · exact absurd hf hnf
      · simp at hnf
        exact hnf hf
  · exact posixBasename_no_slash _

def c10req : DeleteReq :=
  ⟨"85011".toList, "482".toList, "Mechanical".toList,
   "../85011 482 ME - 0.jpg".toList⟩

def c10state : AppState :=
  ⟨["85011 482 ME - 0.jpg".toList], none, none⟩

/-- Witness for C10: a filename with a parent-directory component resolves to
its basename, the only entry removed. -/
theorem C10_delete_confined_witness :
    "85011 482 ME - 0.jpg".toList ∈ c10state.uploads ∧
    "85011 482 ME - 0.jpg".toList ∉ (delete_upload c10req c10state).2.uploads ∧
    "85011 482 ME - 0.jpg".toList = posixBasename (pyStrip c10req.filename) :=
  ⟨by decide, by decide,
   (C10_delete_confined c10req c10state).1 _ (by decide) (by decide)⟩

/-- C6 (amended): when the basename of the supplied filename does not start
with the canonical prefix recomputed from the three context fields,
delete_upload reports an error and leaves the file store and the asset table
unchanged.  (The check is applied to the basename of the filename field, not
to the field itself: a filename with a directory part whose basename matches
the context is accepted.) -/
theorem C6_delete_wrong_context (req : DeleteReq) (st : AppState)
    (h : (contextPfx (pyStrip req.qr_code) (pyStrip req.building_code)
        (pyStrip req.asset_type)).isPrefixOf
        (posixBasename (pyStrip req.filename)) = false) :
    (delete_upload req st).1 ≠ DeleteResult.ok ∧
    (delete_upload req st).2 = st := by
  unfold delete_upload
  split
  · exact ⟨by simp, rfl⟩
  · split
    · exact ⟨by simp, rfl⟩
    · rename_i h2
      rw [h] at h2
      exact absurd rfl h2

def c6req : DeleteReq :=
  ⟨"85011".toList, "482".toList, "Mechanical".toList,
   "evil/85011 482 ME - 0.jpg".toList⟩

def c6state : AppState :=
  ⟨["85011 482 ME - 0.jpg".toList], some ["85011 482 ME - 0".toList], none⟩

/-- Witness for C6: a filename that is a bare wrong-context name is rejected
with no state change. -/
theorem C6_delete_wrong_context_witness :
    (delete_upload ⟨"85011".toList, "482".toList, "Mechanical".toList,
        "other.jpg".toList⟩ c6state).1 ≠ DeleteResult.ok ∧
    (delete_upload ⟨"85011".toList, "482".toList, "Mechanical".toList,
        "other.jpg".toList⟩ c6state).2 = c6state :=
  C6_delete_wrong_context _ c6state (by decide)

/-- C6 counterexample: a delete request whose filename field does not start
with the recomputed canonical prefix (it has a leading directory part) is
nevertheless accepted, and it removes the file and the asset row, because the
code applies the prefix check to the basename only. -/
theorem C6_counterexample :
    (contextPfx (pyStrip c6req.qr_code) (pyStrip c6req.building_code)
        (pyStrip c6req.asset_type)).isPrefixOf (pyStrip c6req.filename)
      = false ∧
    (delete_upload c6req c6state).1 = DeleteResult.ok ∧
    (delete_upload c6req c6state).2 ≠ c6state := by
  decide

/-! ### Ordering of the existing-uploads listing -/

theorem mem_insertByKey {x y : UploadEntry} {l : List UploadEntry} :
    y ∈ insertByKey x l ↔ y = x ∨ y ∈ l := by
  induction l with
  | nil => simp [insertByKey]
  | cons z zs ih =>
    unfold insertByKey
    split
    · rw [List.mem_cons, ih, List.mem_cons]
      tauto
    · simp only [List.mem_cons]

theorem pairwise_insertByKey {x : UploadEntry} {l : List UploadEntry}
    (h : l.Pairwise (fun a b => seqKey a ≤ seqKey b)) :
    (insertByKey x l).Pairwise (fun a b => seqKey a ≤ seqKey b) := by
  induction l with
  | nil => simp [insertByKey]
  | cons y ys ih =>
    rw [List.pairwise_cons] at h
    obtain ⟨hy, hys⟩ := h
    unfold insertByKey
    split
    · rename_i hle
      rw [List.pairwise_cons]
      refine ⟨?_, ih hys⟩
      intro z hz
      rcases mem_insertByKey.1 hz with rfl | hz
      · exact hle
      · exact hy z hz
    · rename_i hgt
      rw [List.pairwise_cons]
      refine ⟨?_, List.pairwise_cons.2 ⟨hy, hys⟩⟩
      intro z hz
      rcases List.mem_cons.1 hz with rfl | hz
      · exact Nat.le_of_lt (Nat.lt_of_not_le hgt)
      · exact Nat.le_trans (Nat.le_of_lt (Nat.lt_of_not_le hgt)) (hy z hz)

theorem pairwise_sortEntries (l : List UploadEntry) :
    (sortEntries l).Pairwise (fun a b => seqKey a ≤ seqKey b) := by
  unfold sortEntries
  suffices h : ∀ acc, acc.Pairwise (fun a b => seqKey a ≤ seqKey b) →
      (l.foldl (fun acc x => insertByKey x acc) acc).Pairwise
        (fun a b => seqKey a ≤ seqKey b) by
    exact h [] (by simp)
  induction l with
  | nil =>
    intro acc h
    simpa using h
  | cons x xs ih =>
    intro acc h
    simp only [List.foldl_cons]
    exact ih _ (pairwise_insertByKey h)

/-- C7 (amended): the listing is sorted ascending by the sort key that maps a
parsable sequence to its numeric value and an unparsable one to 9999; in
particular an entry without a parsable sequence comes after every entry whose
parsed sequence is below 9999 (but not necessarily after entries with parsed
sequence 9999 or more). -/
theorem C7_listing_sorted (qr bldg atype : List Char)
    (uploads : List (List Char)) :
    (list_existing_uploads qr bldg atype uploads).Pairwise
      (fun a b => seqKey a ≤ seqKey b) ∧
    (∀ i j ei ej,
      (list_existing_uploads qr bldg atype uploads).get? i = some ei →
      (list_existing_uploads qr bldg atype uploads).get? j = some ej →
      pyIsDigit ei.seq = false → pyIsDigit ej.seq = true →
      digitsToNat ej.seq < 9999 → j < i) := by
  have hp : (list_existing_uploads qr bldg atype uploads).Pairwise
      (fun a b => seqKey a ≤ seqKey b) := pairwise_sortEntries _
  refine ⟨hp, ?_⟩
  intro i j ei ej hi hj hdi hdj hlt
  have k1 : seqKey ei = 9999 := by simp [seqKey, hdi]
  have k2 : seqKey ej = digitsToNat ej.seq := by simp [seqKey, hdj]
  by_contra hji
  rw [Nat.not_lt] at hji
  rcases List.get?_eq_some.1 hi with ⟨hi2, hei⟩
  rcases List.get?_eq_some.1 hj with ⟨hj2, hej⟩
  rcases Nat.lt_or_ge i j with hij | hij
  · have hr := List.pairwise_iff_get.1 hp ⟨i, hi2⟩ ⟨j, hj2⟩ hij
    rw [hei, hej, k1, k2] at hr
    omega
  · have hieq : i = j := Nat.le_antisymm hji hij
    subst hieq
    rw [hi] at hj
    have : ei = ej := by injection hj
    rw [this, hdj] at hdi
    exact absurd hdi (by decide)

def c7uploads : List (List Char) :=
  ["85011 482 ME - 10000.jpg".toList, "85011 482 ME - x.jpg".toList]

/-- C7 counterexample: with a stored file whose parsed sequence is 10000 and
one without a parsable sequence, the listing places the unparsable entry
first, not last. -/
theorem C7_counterexample :
    (list_existing_uploads ("85011".toList) ("482".toList)
        ("Mechanical".toList) c7uploads).map UploadEntry.seq =
      [[], "10000".toList] ∧
    pyIsDigit ([] : List Char) = false ∧
    pyIsDigit ("10000".toList) = true := by
  decide

def c7wuploads : List (List Char) :=
  ["85011 482 ME - x.jpg".toList, "85011 482 ME - 2.jpg".toList]

/-- Witness for C7: with sequences 2 and unparsable, the parsable entry at
index 0 precedes the unparsable one at index 1. -/
theorem C7_listing_sorted_witness :
    (0 : Nat) < 1 ∧
    (list_existing_uploads ("85011".toList) ("482".toList)
        ("Mechanical".toList) c7wuploads).map UploadEntry.seq =
      ["2".toList, []] :=
  ⟨(C7_listing_sorted ("85011".toList) ("482".toList) ("Mechanical".toList)
      c7wuploads).2 1 0
      ⟨"85011 482 ME - x.jpg".toList, "85011 482 ME - x".toList, [],
        "Photo".toList⟩
      ⟨"85011 482 ME - 2.jpg".toList, "85011 482 ME - 2".toList, "2".toList,
        "Main Asset Photo".toList⟩
      (by decide) (by decide) (by decide) (by decide) (by decide),
   by decide⟩

/-! ### Ordering of mutations inside submit -/

/-- Is the event the creation of new data: a file write, a QR-mapping
upsert, or an asset-record insert? -/
def isCreateEvent : Event → Bool
  | Event.writeFile _ => true
  | Event.upsertQR _ _ => true
  | Event.insRecord _ => true
  | _ => false

theorem delete_assets_events_delete (assets : Option (List (List Char)))
    (qr : List Char) :
    ∀ e ∈ (delete_from_assets_by_qr assets qr).2, isDeleteEvent e = true := by
  unfold delete_from_assets_by_qr
  cases assets with
  | none => simp
  | some rows =>
    intro e he
    simp only [List.mem_map] at he
    obtain ⟨r, _, rfl⟩ := he
    rfl

theorem delete_files_events_delete (uploads : List (List Char))
    (qr : List Char) :
    ∀ e ∈ (delete_files_by_qr uploads qr).2, isDeleteEvent e = true := by
  unfold delete_files_by_qr
  intro e he
  simp only [List.mem_map] at he
  obtain ⟨r, _, rfl⟩ := he
  rfl

theorem overwriteClear_events_delete (ow safe_qr : List Char)
    (st : AppState) :
    ∀ e ∈ (overwriteClear ow safe_qr st).2, isDeleteEvent e = true := by
  unfold overwriteClear
  split
  · intro e he
    rcases List.mem_append.1 he with he | he
    · exact delete_assets_events_delete _ _ e he
    · exact delete_files_events_delete _ _ e he
  · simp

theorem saveStep_events_nondelete (images : Nat → Option (List Char))
    (sq sb stp : List Char) (acc : SaveAcc) (i : Nat)
    (h : ∀ e ∈ acc.events, isDeleteEvent e = false) :
    ∀ e ∈ (saveStep images sq sb stp acc i).events, isDeleteEvent e = false := by
  unfold saveStep
  split
  · exact h
  · split
    · exact h
    · intro e he
      rcases List.mem_append.1 he with he | he
      · exact h e he
      · rw [List.mem_singleton] at he
        subst he
        rfl

theorem foldl_saveStep_events_nondelete (images : Nat → Option (List Char))
    (sq sb stp : List Char) (l : List Nat) :
    ∀ acc : SaveAcc, (∀ e ∈ acc.events, isDeleteEvent e = false) →
      ∀ e ∈ (l.foldl (saveStep images sq sb stp) acc).events,
        isDeleteEvent e = false := by
  induction l with
  | nil =>
    intro acc h
    simpa using h
  | cons i is ih =>
    intro acc h
    simp only [List.foldl_cons]
    exact ih _ (saveStep_events_nondelete images sq sb stp acc i h)

theorem saveLoop_events_nondelete (images : Nat → Option (List Char))
    (sq sb stp : List Char) (u : List (List Char)) :
    ∀ e ∈ (saveLoop images sq sb stp u).events, isDeleteEvent e = false := by
  unfold saveLoop
  exact foldl_saveStep_events_nondelete images sq sb stp [0, 1, 2, 3]
    ⟨u, [], [], []⟩ (by simp)

theorem upsert_events_nondelete (tbl : Option QRcodesTable)
    (qr bldg : List Char) :
    ∀ e ∈ (upsert_qr_codes tbl qr bldg).2, isDeleteEvent e = false := by
  unfold upsert_qr_codes
  split
  · simp
  · split
    · split
      · intro e he
        rw [List.mem_singleton] at he
        subst he
        rfl
      · simp
    · split
      · intro e he
        rw [List.mem_singleton] at he
        subst he
        rfl
      · intro e he
        rw [List.mem_singleton] at he
        subst he
        rfl

theorem insert_fold_events_nondelete (bases : List (List Char)) :
    ∀ acc : List (List Char) × List Event,
      (∀ e ∈ acc.2, isDeleteEvent e = false) →
      ∀ e ∈ (bases.foldl
          (fun (acc : List (List Char) × List Event) b =>
            if acc.1.contains b then acc
            else (acc.1 ++ [b], acc.2 ++ [Event.insRecord b])) acc).2,
        isDeleteEvent e = false := by
  induction bases with
  | nil =>
    intro acc h
    simpa using h
  | cons b bs ih =>
    intro acc h
    simp only [List.foldl_cons]
    apply ih
    split
    · exact h
    · intro e he
      rcases List.mem_append.1 he with he | he
      · exact h e he
      · rw [List.mem_singleton] at he
        subst he
        rfl

theorem insert_events_nondelete (assets : Option (List (List Char)))
    (bases : List (List Char)) :
    ∀ e ∈ (insert_into_assets assets bases).2, isDeleteEvent e = false := by
  unfold insert_into_assets
  cases assets with
  | none => simp
  | some rows => exact insert_fold_events_nondelete bases (rows, []) (by simp)

theorem submit_rest_events_nondelete (form : SubmitForm) (st : AppState) :
    ∀ e ∈ (submitAcc form st).events ++ (submitUp form st).2 ++
        (submitIns form st).2, isDeleteEvent e = false := by
  intro e he
  rcases List.mem_append.1 he with he | he
  · rcases List.mem_append.1 he with he | he
    · exact saveLoop_events_nondelete _ _ _ _ _ e he
    · exact upsert_events_nondelete _ _ _ e he
  · unfold submitIns at he
    split at he
    · cases he
    · exact insert_events_nondelete _ _ e he

theorem append_del_before_new {A B : List Event}
    (hA : ∀ e ∈ A, isDeleteEvent e = true)
    (hB : ∀ e ∈ B, isDeleteEvent e = false) :
    ∀ i j ei ej, (A ++ B).get? i = some ei → (A ++ B).get? j = some ej →
      isDeleteEvent ei = true → isCreateEvent ej = true → i < j := by
  intro i j ei ej hi hj hdel hnew
  have hiA : i < A.length := by
    by_contra hge
    rw [Nat.not_lt] at hge
    rw [List.get?_append_right hge] at hi
    have hmem : ei ∈ B := List.get?_mem hi
    rw [hB ei hmem] at hdel
    exact absurd hdel (by decide)
  have hjB : A.length ≤ j := by
    by_contra hlt
    rw [Nat.not_le] at hlt
    rw [List.get?_append hlt] at hj
    have hmem : ej ∈ A := List.get?_mem hj
    have hd := hA ej hmem
    cases ej <;> simp [isDeleteEvent, isCreateEvent] at hd hnew
  omega

theorem submit_eq_core (form : SubmitForm) (st : AppState)
    (h1 : pyStrip form.qr_code ≠ []) (h2 : pyStrip form.building_code ≠ []) :
    submit form st = submitCore form st := by
  unfold submit
  rw [if_neg]
  intro hc
  exact hc.elim h1 h2

/-- C4: within a submit with valid fields and overwrite set, every deletion
performed by the overwrite-clear comes strictly before every file write,
QR-mapping upsert and asset-record insert (positions in the program-order
event trace). -/
theorem C4_deletes_before_creates (form : SubmitForm) (st : AppState)
    (h1 : pyStrip form.qr_code ≠ []) (h2 : pyStrip form.building_code ≠ [])
    (how : effectiveOverwrite form = ['1']) :
    ∀ i j ei ej, (submit form st).2.2.get? i = some ei →
      (submit form st).2.2.get? j = some ej →
      isDeleteEvent ei = true → isCreateEvent ej = true → i < j := by
  intro i j ei ej hi hj hdel hnew
  rw [submit_eq_core form st h1 h2] at hi hj
  have hcore : (submitCore form st).2.2 =
      (submitOC form st).2 ++
        ((submitAcc form st).events ++ (submitUp form st).2 ++
          (submitIns form st).2) := rfl
  rw [hcore] at hi hj
  exact append_del_before_new
    (fun e he => overwriteClear_events_delete _ _ _ e he)
    (submit_rest_events_nondelete form st) i j ei ej hi hj hdel hnew

def c4form : SubmitForm :=
  ⟨"85011".toList, "482".toList, "Mechanical".toList, ['1'],
   fun i => if i = 0 then some ("p.jpg".toList) else none⟩

def c4state : AppState :=
  ⟨["85011 old.jpg".toList], some ["85011 old".toList], none⟩

/-- Witness for C4: in a concrete overwriting submit, the record deletion at
position 0 precedes the file write at position 2. -/
theorem C4_deletes_before_creates_witness :
    (submit c4form c4state).2.2.get? 0 =
      some (Event.delRecord ("85011 old".toList)) ∧
    (submit c4form c4state).2.2.get? 2 =
      some (Event.writeFile ("85011 482 ME - 0.jpg".toList)) ∧
    (0 : Nat) < 2 :=
  ⟨by decide, by decide,
   C4_deletes_before_creates c4form c4state (by decide) (by decide)
     (by decide) 0 2 (Event.delRecord ("85011 old".toList))
     (Event.writeFile ("85011 482 ME - 0.jpg".toList))
     (by decide) (by decide) (by decide) (by decide)⟩

/-! ### Zero-file submits -/

/-- Modelled from the spec: how the outcome of a submit is presented to the
user.  The success template (part of the repository but not under src)
presents an empty saved-file list as a warning rather than a hard failure;
a validation failure is the only hard-failure outcome of submit. -/
inductive SubmitReport where
  | validationFailure
  | emptyWarning
  | savedOk
deriving DecidableEq

/-- Modelled from the spec: the report for each submit result. -/
def report_for : SubmitResult → SubmitReport
  | SubmitResult.validationError => SubmitReport.validationFailure
  | SubmitResult.success [] => SubmitReport.emptyWarning
  | SubmitResult.success (_ :: _) => SubmitReport.savedOk

theorem saveStep_skip (images : Nat → Option (List Char))
    (sq sb stp : List Char) (acc : SaveAcc) (i : Nat)
    (h : images i = none ∨ images i = some []) :
    saveStep images sq sb stp acc i = acc := by
  unfold saveStep
  rcases h with h | h <;> rw [h] <;> rfl

theorem saveLoop_empty (images : Nat → Option (List Char))
    (sq sb stp : List Char) (u : List (List Char))
    (h : ∀ i, i < 4 → images i = none ∨ images i = some []) :
    saveLoop images sq sb stp u = ⟨u, [], [], []⟩ := by
  unfold saveLoop
  simp only [List.foldl_cons, List.foldl_nil]
  rw [saveStep_skip images sq sb stp _ 0 (h 0 (by omega)),
      saveStep_skip images sq sb stp _ 1 (h 1 (by omega)),
      saveStep_skip images sq sb stp _ 2 (h 2 (by omega)),
      saveStep_skip images sq sb stp _ 3 (h 3 (by omega))]

theorem overwriteClear_qrcodes (ow q : List Char) (st : AppState) :
    (overwriteClear ow q st).1.qrcodes = st.qrcodes := by
  unfold overwriteClear
  split <;> rfl

theorem overwriteClear_assets (ow q : List Char) (st : AppState) :
    (overwriteClear ow q st).1.assets =
      (if ow = ['1'] then (delete_from_assets_by_qr st.assets q).1
       else st.assets) := by
  unfold overwriteClear
  split <;> rfl

theorem overwriteClear_uploads (ow q : List Char) (st : AppState) :
    (overwriteClear ow q st).1.uploads =
      (if ow = ['1'] then (delete_files_by_qr st.uploads q).1
       else st.uploads) := by
  unfold overwriteClear
  split <;> rfl

/-- C5: a valid submit with zero supplied image files succeeds with an empty
saved-file list (reported as a warning, not a hard failure), the QR-mapping
upsert still takes effect on the QR table, and a requested overwrite-deletion
still takes effect on the asset table and the file store; nothing else
changes. -/
theorem C5_zero_files (form : SubmitForm) (st : AppState)
    (h1 : pyStrip form.qr_code ≠ []) (h2 : pyStrip form.building_code ≠ [])
    (himg : ∀ i, i < 4 → form.images i = none ∨ form.images i = some []) :
    (submit form st).1 = SubmitResult.success [] ∧
    report_for (submit form st).1 = SubmitReport.emptyWarning ∧
    (submit form st).2.1.qrcodes =
      (upsert_qr_codes st.qrcodes (submitSafeQr form)
        (pyStrip form.building_code)).1 ∧
    (submit form st).2.1.assets =
      (if effectiveOverwrite form = ['1'] then
        (delete_from_assets_by_qr st.assets (submitSafeQr form)).1
       else st.assets) ∧
    (submit form st).2.1.uploads =
      (if effectiveOverwrite form = ['1'] then
        (delete_files_by_qr st.uploads (submitSafeQr form)).1
       else st.uploads) := by
  have hacc : submitAcc form st =
      ⟨(submitOC form st).1.uploads, [], [], []⟩ := by
    unfold submitAcc
    exact saveLoop_empty _ _ _ _ _ himg
  have hs := submit_eq_core form st h1 h2
  have hins : submitIns form st = ((submitOC form st).1.assets, []) := by
    unfold submitIns
    rw [hacc]
    rfl
  refine ⟨?_, ?_, ?_, ?_, ?_⟩
  · rw [hs]
    show SubmitResult.success (submitAcc form st).files_saved =
      SubmitResult.success []
    rw [hacc]
  · rw [hs]
    show report_for (SubmitResult.success (submitAcc form st).files_saved) =
      SubmitReport.emptyWarning
    rw [hacc]
    rfl
  · rw [hs]
    show (submitUp form st).1 = _
    unfold submitUp submitOC
    rw [overwriteClear_qrcodes]
  · rw [hs]
    show (submitIns form st).1 = _
    rw [hins]
    show (submitOC form st).1.assets = _
    unfold submitOC
    rw [overwriteClear_assets]
  · rw [hs]
    show (submitAcc form st).uploads = _
    rw [hacc]
    show (submitOC form st).1.uploads = _
    unfold submitOC
    rw [overwriteClear_uploads]

def c5form : SubmitForm :=
  ⟨"85011".toList, "482".toList, "Mechanical".toList, ['1'],
   fun _ => none⟩

def c5state : AppState :=
  ⟨["85011 old.jpg".toList], some ["85011 old".toList],
   some ⟨true, []⟩⟩

/-- Witness for C5: a concrete zero-file overwriting submit succeeds with a
warning report, the QR row is inserted and the old record and file are
cleared. -/
theorem C5_zero_files_witness :
    (submit c5form c5state).1 = SubmitResult.success [] ∧
    report_for (submit c5form c5state).1 = SubmitReport.emptyWarning ∧
    (submit c5form c5state).2.1.qrcodes =
      (upsert_qr_codes c5state.qrcodes (submitSafeQr c5form)
        (pyStrip c5form.building_code)).1 ∧
    (submit c5form c5state).2.1.assets =
      (if effectiveOverwrite c5form = ['1'] then
        (delete_from_assets_by_qr c5state.assets (submitSafeQr c5form)).1
       else c5state.assets) ∧
    (submit c5form c5state).2.1.uploads =
      (if effectiveOverwrite c5form = ['1'] then
        (delete_files_by_qr c5state.uploads (submitSafeQr c5form)).1
       else c5state.uploads) :=
  C5_zero_files c5form c5state (by decide) (by decide)
    (fun i _ => Or.inl rfl)

/-! ### The overwrite-clear deletion sets -/

theorem likeMatchF_pct_all (s : List Char) :
    ∀ f, s.length + 2 ≤ f → likeMatchF f ['%'] s = true := by
  induction s with
  | nil =>
    intro f hf
    obtain ⟨f1, rfl⟩ : ∃ f1, f = f1 + 1 := ⟨f - 1, by omega⟩
    obtain ⟨f2, rfl⟩ : ∃ f2, f1 = f2 + 1 := ⟨f1 - 1, by omega⟩
    simp [likeMatchF]
  | cons c cs ih =>
    intro f hf
    obtain ⟨f1, rfl⟩ : ∃ f1, f = f1 + 1 := ⟨f - 1, by omega⟩
    have hrec : likeMatchF f1 ['%'] cs = true := by
      apply ih
      simp at hf
      omega
    simp only [likeMatchF]
    simp [hrec]

theorem likeMatchF_of_isPrefixOf (p : List Char) :
    ∀ s f, (∀ c ∈ p, ¬ c = '%') → p.isPrefixOf s = true →
      p.length + s.length + 2 ≤ f → likeMatchF f (p ++ ['%']) s = true := by
  induction p with
  | nil =>
    intro s f _ _ hf
    exact likeMatchF_pct_all s f (by omega)
  | cons c p' ih =>
    intro s f hnp hpre hf
    cases s with
    | nil => simp at hpre
    | cons d s' =>
      obtain ⟨f1, rfl⟩ : ∃ f1, f = f1 + 1 := ⟨f - 1, by omega⟩
      rw [List.isPrefixOf_cons₂, Bool.and_eq_true, beq_iff_eq] at hpre
      obtain ⟨rfl, hpre'⟩ := hpre
      have hc_pct : ¬ c = '%' := hnp c (by simp)
      have hrec : likeMatchF f1 (p' ++ ['%']) s' = true := by
        apply ih s' f1 (fun x hx => hnp x (by simp [hx])) hpre'
        simp at hf
        omega
      simp only [List.cons_append, likeMatchF]
      rw [if_neg hc_pct]
      by_cases hc_us : c = '_'
      · rw [if_pos hc_us]
        show likeMatchF f1 (p' ++ ['%']) s' = true
        exact hrec
      · rw [if_neg hc_us]
        show (charEqCI c c && likeMatchF f1 (p' ++ ['%']) s') = true
        rw [hrec, Bool.and_true]
        simp [charEqCI]

theorem sanitize_no_pct (s : List Char) (pd : Bool) (n : Nat) :
    ∀ c ∈ sanitize_component s pd n, ¬ c = '%' := by
  intro c hc hce
  subst hce
  exact absurd (sanitize_mem_allowed hc) (by decide)

theorem likeMatch_of_pfx (qr r : List Char)
    (hq : ∀ c ∈ qr, ¬ c = '%')
    (h : (qr ++ [' ']).isPrefixOf r = true) :
    likeMatch (likePat qr) r = true := by
  have hp : likePat qr = (qr ++ [' ']) ++ ['%'] := by
    unfold likePat
    rw [List.append_assoc]
    rfl
  rw [likeMatch, hp]
  apply likeMatchF_of_isPrefixOf _ _ _ ?_ h ?_
  · intro c hc
    rcases List.mem_append.1 hc with hc | hc
    · exact hq c hc
    · rw [List.mem_singleton] at hc
      subst hc
      decide
  · simp [likePat]
    omega

theorem submitOC_trace (form : SubmitForm) (st : AppState)
    (how : effectiveOverwrite form = ['1']) :
    (submitOC form st).2 =
      (delete_from_assets_by_qr st.assets (submitSafeQr form)).2 ++
        (delete_files_by_qr st.uploads (submitSafeQr form)).2 := by
  unfold submitOC overwriteClear
  rw [how]
  rfl

theorem submit_trace_eq (form : SubmitForm) (st : AppState)
    (h1 : pyStrip form.qr_code ≠ []) (h2 : pyStrip form.building_code ≠ []) :
    (submit form st).2.2 = (submitOC form st).2 ++
      ((submitAcc form st).events ++ (submitUp form st).2 ++
        (submitIns form st).2) := by
  rw [submit_eq_core form st h1 h2]
  rfl

/-- C2 (amended): within a valid overwriting submit, the deleted asset
records are exactly the rows matching the SQLite LIKE pattern formed by the
sanitized QR, a space and a percent wildcard — LIKE compares ASCII letters
case-insensitively and treats each underscore of the sanitized QR as a
single-character wildcard, so this set contains every record whose key starts
with the sanitized QR plus a space but can be strictly larger — while the
deleted stored files are exactly the files whose name starts (byte-exactly)
with the sanitized QR plus a space. -/
theorem C2_overwrite_clear_sets (form : SubmitForm) (st : AppState)
    (rows : List (List Char))
    (h1 : pyStrip form.qr_code ≠ []) (h2 : pyStrip form.building_code ≠ [])
    (how : effectiveOverwrite form = ['1'])
    (ha : st.assets = some rows) :
    (∀ r, Event.delRecord r ∈ (submit form st).2.2 ↔
      (r ∈ rows ∧ likeMatch (likePat (submitSafeQr form)) r = true)) ∧
    (∀ r, r ∈ rows → (submitSafeQr form ++ [' ']).isPrefixOf r = true →
      Event.delRecord r ∈ (submit form st).2.2) ∧
    (∀ f, Event.delFile f ∈ (submit form st).2.2 ↔
      (f ∈ st.uploads ∧
        (submitSafeQr form ++ [' ']).isPrefixOf f = true)) := by
  have htr := submit_trace_eq form st h1 h2
  have hoc := submitOC_trace form st how
  have hda : (delete_from_assets_by_qr st.assets (submitSafeQr form)).2 =
      (rows.filter
        (fun r => likeMatch (likePat (submitSafeQr form)) r)).map
        Event.delRecord := by
    rw [ha]
    rfl
  have hdf : (delete_files_by_qr st.uploads (submitSafeQr form)).2 =
      (st.uploads.filter
        (fun f => (submitSafeQr form ++ [' ']).isPrefixOf f)).map
        Event.delFile := rfl
  have hrest := submit_rest_events_nondelete form st
  have hrec : ∀ r, Event.delRecord r ∈ (submit form st).2.2 ↔
      (r ∈ rows ∧ likeMatch (likePat (submitSafeQr form)) r = true) := by
    intro r
    rw [htr, List.mem_append, hoc, List.mem_append, hda, hdf]
    constructor
    · rintro ((hm | hm) | hm)
      · rcases List.mem_map.1 hm with ⟨x, hx, hxe⟩
        obtain rfl : x = r := by injection hxe
        exact ⟨(List.mem_filter.1 hx).1, (List.mem_filter.1 hx).2⟩
      · rcases List.mem_map.1 hm with ⟨x, hx, hxe⟩
        exact absurd hxe (by simp)
      · have hnd := hrest _ hm
        simp [isDeleteEvent] at hnd
    · rintro ⟨hr, hl⟩
      exact Or.inl (Or.inl
        (List.mem_map.2 ⟨r, List.mem_filter.2 ⟨hr, hl⟩, rfl⟩))
  have hfile : ∀ f, Event.delFile f ∈ (submit form st).2.2 ↔
      (f ∈ st.uploads ∧
        (submitSafeQr form ++ [' ']).isPrefixOf f = true) := by
    intro f
    rw [htr, List.mem_append, hoc, List.mem_append, hda, hdf]
    constructor
    · rintro ((hm | hm) | hm)
      · rcases List.mem_map.1 hm with ⟨x, hx, hxe⟩
        exact absurd hxe (by simp)
      · rcases List.mem_map.1 hm with ⟨x, hx, hxe⟩
        obtain rfl : x = f := by injection hxe
        exact ⟨(List.mem_filter.1 hx).1, (List.mem_filter.1 hx).2⟩
      · have hnd := hrest _ hm
        simp [isDeleteEvent] at hnd
    · rintro ⟨hf2, hl⟩
      exact Or.inl (Or.inr
        (List.mem_map.2 ⟨f, List.mem_filter.2 ⟨hf2, hl⟩, rfl⟩))
  refine ⟨hrec, ?_, hfile⟩
  intro r hr hp
  exact (hrec r).2 ⟨hr,
    likeMatch_of_pfx _ _ (sanitize_no_pct (pyStrip form.qr_code) true 80) hp⟩

def c2form : SubmitForm :=
  ⟨"a b".toList, "482".toList, "Mechanical".toList, ['1'], fun _ => none⟩

def c2state : AppState :=
  ⟨[], some ["aXb 0".toList], none⟩

/-- C2 counterexample: the QR sanitizes to a string with an underscore; the
overwrite-clear of a submit then deletes an asset record that does not start
with the sanitized QR plus a space, because the SQL LIKE underscore matches
any character. -/
theorem C2_counterexample :
    submitSafeQr c2form = "a_b".toList ∧
    Event.delRecord ("aXb 0".toList) ∈ (submit c2form c2state).2.2 ∧
    (submitSafeQr c2form ++ [' ']).isPrefixOf ("aXb 0".toList) = false := by
  decide

def c2wform : SubmitForm :=
  ⟨"85011".toList, "482".toList, "Mechanical".toList, ['1'], fun _ => none⟩

def c2wstate : AppState :=
  ⟨["85011 y.jpg".toList], some ["85011 x".toList], none⟩

/-- Witness for C2: in a concrete overwriting submit both the prefixed
record and the prefixed file are deleted. -/
theorem C2_overwrite_clear_sets_witness :
    Event.delRecord ("85011 x".toList) ∈ (submit c2wform c2wstate).2.2 ∧
    Event.delFile ("85011 y.jpg".toList) ∈ (submit c2wform c2wstate).2.2 :=
  ⟨(C2_overwrite_clear_sets c2wform c2wstate ["85011 x".toList] (by decide)
      (by decide) (by decide) rfl).2.1 _ (by decide) (by decide),
   ((C2_overwrite_clear_sets c2wform c2wstate ["85011 x".toList] (by decide)
      (by decide) (by decide) rfl).2.2 _).mpr ⟨by decide, by decide⟩⟩

end AssetCapture
